import Mathlib

/-!
# Verification of the rs_db type-directed SQL statement parser

Shallow embedding of the rs_db_parser crate (nom 7 + nom_supreme combinators)
and proofs about its CREATE TABLE / INSERT grammars, type-directed value
parsing, and diagnostics formatting.

Modelling conventions:
- A nom_locate LocatedSpan over the input text is a pair of a character
  offset and the remaining/captured character list (Sp).  Line numbers are
  dropped: no property below depends on them.  Inputs in the repository are
  ASCII, so character offsets coincide with the byte offsets of the source.
- nom_supreme ErrorTree is ErrTree; nom Err::Error / Err::Failure is the
  Boolean fatal flag of PRes.err.
- Rust machine integers are Int with explicit range checks mirroring
  str::parse / from_str_radix.
-/

namespace RsDb

/-- Single quote character (kept as a named constant). -/
def qc : Char := Char.ofNat 39

/-- Backslash character (kept as a named constant). -/
def bs : Char := Char.ofNat 92

/-- A located span: character offset into the original text plus the
fragment (remaining input for cursors, captured text for tokens).
Models nom_locate LocatedSpan of a string slice. -/
structure Sp where
  off : Nat
  s : List Char
deriving DecidableEq, Repr

/-- Base error causes of nom_supreme BaseErrorKind: an expected character,
an expected (case-insensitive) tag, a plain nom ErrorKind (by name), or a
boxed external error (by its message). -/
inductive ErrKind where
  | expectedChar (c : Char)
  | expectedTag (t : String)
  | kind (k : String)
  | external (msg : String)
deriving DecidableEq, Repr

/-- nom_supreme GenericErrorTree: a base cause, a base wrapped in a stack of
named contexts (innermost first), or an alternation of candidate errors. -/
inductive ErrTree where
  | base (off : Nat) (kind : ErrKind)
  | stack (b : ErrTree) (contexts : List (Nat × String))
  | alt (es : List ErrTree)
deriving Repr

/-- Parse result: success with the advanced cursor and a value, or an error
tree flagged fatal (nom Err::Failure, produced by cut) or recoverable
(nom Err::Error). -/
inductive PRes (α : Type) where
  | ok (rest : Sp) (val : α)
  | err (fatal : Bool) (tree : ErrTree)
deriving Repr

/-- Advance a cursor by n characters. -/
def adv (i : Sp) (n : Nat) : Sp := ⟨i.off + n, i.s.drop n⟩

/-- nom_supreme add_context: push a named context (location, label) onto an
error, extending an existing stack (contexts are innermost-first). -/
def addCtx (off : Nat) (name : String) : ErrTree → ErrTree
  | .stack b ctxs => .stack b (ctxs ++ [(off, name)])
  | t => .stack t [(off, name)]

/-- nom context combinator applied to a result: wraps both recoverable and
fatal errors, leaves successes alone. -/
def ctx (name : String) (i : Sp) (r : PRes α) : PRes α :=
  match r with
  | .ok rest v => .ok rest v
  | .err f t => .err f (addCtx i.off name t)

/-- The four whitespace characters accepted by nom multispace0/1:
space, tab, line feed, carriage return. -/
def isMsChar (c : Char) : Bool :=
  c = ' ' || c = Char.ofNat 9 || c = Char.ofNat 10 || c = Char.ofNat 13

/-- nom multispace0: skip any run of whitespace (never fails). -/
def ms0adv (i : Sp) : Sp :=
  ⟨i.off + (i.s.takeWhile isMsChar).length, i.s.dropWhile isMsChar⟩

/-- nom multispace1: require at least one whitespace character, then skip
the whole run; fails with ErrorKind::MultiSpace otherwise. -/
def ms1 (i : Sp) : PRes Unit :=
  match i.s with
  | [] => .err false (.base i.off (.kind "MultiSpace"))
  | c :: _ =>
    if isMsChar c then .ok (ms0adv i) ()
    else .err false (.base i.off (.kind "MultiSpace"))

/-- nom char combinator: match one exact character. -/
def pchar (c : Char) (i : Sp) : PRes Char :=
  match i.s with
  | a :: rest => if a = c then .ok ⟨i.off + 1, rest⟩ a
                 else .err false (.base i.off (.expectedChar c))
  | [] => .err false (.base i.off (.expectedChar c))

/-- Case-insensitive prefix test used by nom_supreme tag_no_case
(ASCII keywords: Char.toLower matches Rust lowercase comparison here). -/
def noCaseBegins : List Char → List Char → Bool
  | [], _ => true
  | _ :: _, [] => false
  | a :: ta, b :: tb => (b.toLower = a.toLower) && noCaseBegins ta tb

/-- nom_supreme tag_no_case: match a keyword case-insensitively, returning
the consumed slice; fails with Expected(Tag) at the input position. -/
def tagNoCase (t : String) (i : Sp) : PRes Sp :=
  if noCaseBegins t.data i.s then .ok (adv i t.data.length) ⟨i.off, i.s.take t.data.length⟩
  else .err false (.base i.off (.expectedTag t))

/-- nom take_while_m_n (complete): consume between m and n characters
satisfying the predicate, maximally; fails with the given ErrorKind name if
fewer than m match. -/
def takeWhileMN (m n : Nat) (p : Char → Bool) (k : String) (i : Sp) : PRes Sp :=
  let cap := (i.s.takeWhile p).take n
  if cap.length < m then .err false (.base i.off (.kind k))
  else .ok (adv i cap.length) ⟨i.off, cap⟩

/-- Identifier characters: ASCII alphanumeric or underscore
(Rust char::is_ascii_alphanumeric). -/
def isIdentChar (c : Char) : Bool := c.isAlpha || c.isDigit || c = '_'

/-- src/parsers/identifier.rs identifier: take_while_m_n(0, 128, ident-char).
Note the 0 lower bound (empty identifiers accepted) and the 128 upper bound. -/
def identifier (i : Sp) : PRes Sp :=
  takeWhileMN 0 128 isIdentChar "TakeWhileMN" i

/-- nom take_while1 specialised to the integer scanner of
src/parsers/number.rs parse_int: the scanned characters. -/
def takeWhile1 (p : Char → Bool) (i : Sp) : PRes Sp :=
  let run := i.s.takeWhile p
  if run.length = 0 then .err false (.base i.off (.kind "TakeWhile1"))
  else .ok (adv i run.length) ⟨i.off, run⟩

/-- ASCII digit test. -/
def isDigitChar (c : Char) : Bool := '0' ≤ c && c ≤ '9'

/-- The character class scanned by parse_int in src/parsers/number.rs:
ASCII digits and the minus sign, anywhere in the run. -/
def isDigitDash (c : Char) : Bool := isDigitChar c || c = '-'

/-- Numeric value of a digit list (most significant first). -/
def digitsToNat (l : List Char) : Nat :=
  l.foldl (fun acc c => acc * 10 + (c.toNat - '0'.toNat)) 0

/-- All characters are ASCII digits. -/
def allDigits (l : List Char) : Bool := l.all isDigitChar

/-- Rust str::parse for a fixed-width integer (FromStr for iN / uN):
an optional sign (minus only for signed types), then a nonempty digit run,
and the value must fit the width.  Returns none on malformed input or
overflow (Rust ParseIntError). -/
def rustIntFromStr (signed : Bool) (bits : Nat) (l : List Char) : Option Int :=
  match l with
  | [] => none
  | c :: rest =>
    let pr : Bool × List Char :=
      if c = '+' then (false, rest)
      else if c = '-' && signed then (true, rest)
      else (false, l)
    let neg := pr.1
    let ds := pr.2
    if ds.length = 0 || !allDigits ds then none
    else
      let v : Int := if neg then -(digitsToNat ds : Int) else (digitsToNat ds : Int)
      if signed then
        if -(2 ^ (bits - 1) : Int) ≤ v ∧ v < (2 ^ (bits - 1) : Int) then some v else none
      else
        if v < (2 ^ bits : Int) then some v else none

/-- impl_parse_number from src/parsers/number.rs, parameterised over the
signedness and width the Rust macro instantiates:
map_res(parse_int, str::parse).  The conversion error is located at the
start of the scanned literal (nom map_res). -/
def intValueParse (signed : Bool) (bits : Nat) (i : Sp) : PRes Int :=
  match takeWhile1 isDigitDash i with
  | .err f t => .err f t
  | .ok i2 sp =>
    match rustIntFromStr signed bits sp.s with
    | some v => .ok i2 v
    | none => .err false (.base i.off (.external "IntConversion"))

/-- SqlType from src/ast/commands/create.rs: bounded text plus the ten
fixed-width integer types. -/
inductive SqlType where
  | varChar (size : Nat)
  | i8 | i16 | i32 | i64 | i128
  | u8 | u16 | u32 | u64 | u128
deriving DecidableEq, Repr

/-- Value from src/value.rs: tagged union mirroring SqlType.  Machine
integers are modelled as Int (ranges guaranteed by the parse that builds
them); the VarChar payload is the stored character list. -/
inductive Value where
  | varChar (s : List Char)
  | i8 (v : Int) | i16 (v : Int) | i32 (v : Int) | i64 (v : Int) | i128 (v : Int)
  | u8 (v : Int) | u16 (v : Int) | u32 (v : Int) | u64 (v : Int) | u128 (v : Int)
deriving DecidableEq, Repr

/-- Which Value constructor each integer SqlType produces, with its
signedness and width; none for VarChar.  (Bookkeeping for the number
claims; the parser itself dispatches per constructor below.) -/
def intSpec : SqlType → Option (Bool × Nat)
  | .varChar _ => none
  | .i8 => some (true, 8)
  | .i16 => some (true, 16)
  | .i32 => some (true, 32)
  | .i64 => some (true, 64)
  | .i128 => some (true, 128)
  | .u8 => some (false, 8)
  | .u16 => some (false, 16)
  | .u32 => some (false, 32)
  | .u64 => some (false, 64)
  | .u128 => some (false, 128)

/-- The Value constructor for an integer SqlType (VarChar is mapped to an
unused dummy; it never meets this function through intSpec). -/
def mkIntVal : SqlType → Int → Value
  | .varChar _, _ => .varChar []
  | .i8, v => .i8 v
  | .i16, v => .i16 v
  | .i32, v => .i32 v
  | .i64, v => .i64 v
  | .i128, v => .i128 v
  | .u8, v => .u8 v
  | .u16, v => .u16 v
  | .u32, v => .u32 v
  | .u64, v => .u64 v
  | .u128, v => .u128 v

/-- Scan of the quoted-literal body by nom escaped(none_of "\\'", bs,
one_of "'\\") (complete version): returns the number of characters of the
raw body on success, or the relative error offset and ErrorKind name.
Normal characters are anything but backslash and quote; a backslash must be
followed by a quote or a backslash (two characters consumed); the scan
stops in front of an unescaped quote or at the end of input. -/
def escapedScanE (pos : Nat) (l : List Char) : Except (Nat × String) Nat :=
  match l with
  | [] => .ok 0
  | c :: rest =>
    if c = bs then
      match rest with
      | [] => .error (0, "Escaped")
      | e :: rest2 =>
        if e = qc || e = bs then
          match escapedScanE (pos + 2) rest2 with
          | .ok n => .ok (n + 2)
          | .error p => .error p
        else .error (pos + 1, "OneOf")
    else if c = qc then .ok 0
    else
      match escapedScanE (pos + 1) rest with
      | .ok n => .ok (n + 1)
      | .error p => .error p

/-- nom escaped on the literal body, including the check that errors when
the scan stops immediately at an unescaped quote having consumed nothing
(the index == 0 branch of nom escaped). -/
def escapedRun (l : List Char) : Except (Nat × String) Nat :=
  match l with
  | [] => .ok 0
  | c :: _ =>
    if c = qc then .error (0, "Escaped")
    else escapedScanE 0 l

/-- Value::parse_inner for SqlType::VarChar(size) from src/value.rs:
preceded(char quote, cut(map_res(terminated(escaped(...), char quote),
length check))) mapped into Value::VarChar.  Everything after the opening
quote is under cut, hence fatal on failure.  The length check compares the
RAW body length (escape sequences still two characters) against size, and
the stored text is the raw body. -/
def varcharParse (size : Nat) (i : Sp) : PRes Value :=
  match i.s with
  | [] => .err false (.base i.off (.expectedChar qc))
  | c :: rest =>
    if c = qc then
      match escapedRun rest with
      | .error p => .err true (.base (i.off + 1 + p.1) (.kind p.2))
      | .ok n =>
        match rest.drop n with
        | d :: _ =>
          if d = qc then
            if size < n then .err true (.base (i.off + 1) (.external "Value too long"))
            else .ok (adv i (n + 2)) (.varChar (rest.take n))
          else .err true (.base (i.off + 1 + n) (.expectedChar qc))
        | [] => .err true (.base (i.off + 1 + n) (.expectedChar qc))
    else .err false (.base i.off (.expectedChar qc))

/-- Value::parse_inner from src/value.rs: type-directed dispatch over the
expected SqlType. -/
def valueParseInner : SqlType → Sp → PRes Value
  | .varChar size, i => varcharParse size i
  | .i8, i =>
    match intValueParse true 8 i with
    | .ok r v => .ok r (.i8 v)
    | .err f t => .err f t
  | .i16, i =>
    match intValueParse true 16 i with
    | .ok r v => .ok r (.i16 v)
    | .err f t => .err f t
  | .i32, i =>
    match intValueParse true 32 i with
    | .ok r v => .ok r (.i32 v)
    | .err f t => .err f t
  | .i64, i =>
    match intValueParse true 64 i with
    | .ok r v => .ok r (.i64 v)
    | .err f t => .err f t
  | .i128, i =>
    match intValueParse true 128 i with
    | .ok r v => .ok r (.i128 v)
    | .err f t => .err f t
  | .u8, i =>
    match intValueParse false 8 i with
    | .ok r v => .ok r (.u8 v)
    | .err f t => .err f t
  | .u16, i =>
    match intValueParse false 16 i with
    | .ok r v => .ok r (.u16 v)
    | .err f t => .err f t
  | .u32, i =>
    match intValueParse false 32 i with
    | .ok r v => .ok r (.u32 v)
    | .err f t => .err f t
  | .u64, i =>
    match intValueParse false 64 i with
    | .ok r v => .ok r (.u64 v)
    | .err f t => .err f t
  | .u128, i =>
    match intValueParse false 128 i with
    | .ok r v => .ok r (.u128 v)
    | .err f t => .err f t

/-- parse_with_span from src/parsers/mod.rs: run a parser and pair its
result with the exact span it consumed (truncate_raw_span by offset
subtraction). -/
def withSpan (i : Sp) (r : PRes α) : PRes (Sp × α) :=
  match r with
  | .ok i2 v => .ok i2 (⟨i.off, i.s.take (i2.off - i.off)⟩, v)
  | .err f t => .err f t

/-- Value::parse_with_type from src/value.rs: context "Value" around
parse_with_span of parse_inner. -/
def valueParseWithType (tp : SqlType) (i : Sp) : PRes (Sp × Value) :=
  ctx "Value" i (withSpan i (valueParseInner tp i))

/-- Column from src/ast/commands/create.rs: owned name plus type. -/
structure Column where
  name : List Char
  tp : SqlType
deriving DecidableEq, Repr

/-- Per-table column map (HashMap keyed by column name; only get is used
during INSERT parsing, so an association list is an adequate model). -/
def ColumnMap := List (List Char × Column)

/-- Table map: table name to column map. -/
def TableMap := List (List Char × ColumnMap)

/-- HashMap::get on the association-list model. -/
def alookup (k : List Char) : List (List Char × β) → Option β
  | [] => none
  | (k2, v) :: rest => if k2 = k then some v else alookup k rest

/-- Vec::pop on the Rust vector model (index 0 of the Lean list is index 0
of the Vec; pop removes the last element). -/
def vecPop (l : List α) : Option (List α × α) :=
  match l.getLast? with
  | none => none
  | some x => some (l.dropLast, x)

/-- RowParser::parse from src/parsers/row.rs: pop the next matched column
off the stack (the pop persists even if the value fails to parse) and parse
one value with that column's declared type; with no column left, fail with
Expected(Char(closing parenthesis)) at the current position. -/
def rowParse (stack : List (Sp × Column)) (i : Sp) :
    List (Sp × Column) × PRes (Sp × (Sp × Value)) :=
  match vecPop stack with
  | none => (stack, .err false (.base i.off (.expectedChar ')')))
  | some (stack2, (nameSp, col)) =>
    match valueParseWithType col.tp i with
    | .ok i2 v => (stack2, .ok i2 (nameSp, v))
    | .err f t => (stack2, .err f t)

/-- The separator of comma_sep (src/parsers/mod.rs):
delimited(multispace0, char comma, multispace0). -/
def sepParse (i : Sp) : PRes Unit :=
  match pchar ',' (ms0adv i) with
  | .err f t => .err f t
  | .ok j1 _ => .ok (ms0adv j1) ()

/-- Loop of nom separated_list1 for the stateful row parser: after the
first element, repeatedly parse a separator (with the no-progress check of
nom, ErrorKind::SeparatedList) and an element; a recoverable element or
separator failure ends the list, backtracking to before the separator
(the row-parser state mutated by a failed element attempt persists, as in
the Rust code); a fatal failure propagates. -/
def sepRowLoop (stack : List (Sp × Column)) (acc : List (Sp × (Sp × Value)))
    (i : Sp) : Nat → List (Sp × Column) × PRes (List (Sp × (Sp × Value)))
  | 0 => (stack, .err false (.base i.off (.kind "Fuel")))
  | fuel + 1 =>
    match sepParse i with
    | .err true t => (stack, .err true t)
    | .err false _ => (stack, .ok i acc)
    | .ok i1 _ =>
      if i1.s.length = i.s.length then
        (stack, .err false (.base i1.off (.kind "SeparatedList")))
      else
        match rowParse stack i1 with
        | (st2, .err true t) => (st2, .err true t)
        | (st2, .err false _) => (st2, .ok i acc)
        | (st2, .ok i2 v) => sepRowLoop st2 (acc ++ [v]) i2 fuel

/-- nom separated_list1 over the stateful row parser: first element, then
the loop.  The fuel is one more than the remaining input length; every loop
iteration consumes at least the comma, so it never runs out on the paths a
success can take. -/
def sepRowAll (stack : List (Sp × Column)) (i : Sp) :
    List (Sp × Column) × PRes (List (Sp × (Sp × Value))) :=
  match rowParse stack i with
  | (st, .err f t) => (st, .err f t)
  | (st, .ok i1 v) => sepRowLoop st [v] i1 (i1.s.length + 1)

/-- Loop of nom separated_list1 for a stateless element parser (used for the
identifier list and the column-definition list). -/
def sepListLoop (p : Sp → PRes α) (acc : List α) (i : Sp) :
    Nat → PRes (List α)
  | 0 => .err false (.base i.off (.kind "Fuel"))
  | fuel + 1 =>
    match sepParse i with
    | .err true t => .err true t
    | .err false _ => .ok i acc
    | .ok i1 _ =>
      if i1.s.length = i.s.length then
        .err false (.base i1.off (.kind "SeparatedList"))
      else
        match p i1 with
        | .err true t => .err true t
        | .err false _ => .ok i acc
        | .ok i2 v => sepListLoop p (acc ++ [v]) i2 fuel

/-- nom separated_list1 for a stateless element parser. -/
def sepList1 (p : Sp → PRes α) (i : Sp) : PRes (List α) :=
  match p i with
  | .err f t => .err f t
  | .ok i1 v => sepListLoop p [v] i1 (i1.s.length + 1)

/-- comma_sep from src/parsers/mod.rs:
delimited(multispace0, separated_list1(ws comma ws, f), multispace0). -/
def commaSep (p : Sp → PRes α) (i : Sp) : PRes (List α) :=
  match sepList1 p (ms0adv i) with
  | .err f t => .err f t
  | .ok i2 vs => .ok (ms0adv i2) vs

/-- First phase of parse_values (src/ast/commands/insert.rs): the column
name list and the VALUES keyword, under context "Column Definitions":
delimited(ms1, delimited(char lparen, delimited(ms0,
context "Column Names" (comma_sep identifier), ms0), char rparen),
delimited(ms1, tag_no_case "values", ms1)). -/
def phase1 (i : Sp) : PRes (List Sp) :=
  match ms1 i with
  | .err f t => .err f (addCtx i.off "Column Definitions" t)
  | .ok iA _ =>
    match pchar '(' iA with
    | .err f t => .err f (addCtx i.off "Column Definitions" t)
    | .ok iB _ =>
      let iC := ms0adv iB
      match commaSep identifier iC with
      | .err f t =>
        .err f (addCtx i.off "Column Definitions" (addCtx iC.off "Column Names" t))
      | .ok iD ns =>
        let iE := ms0adv iD
        match pchar ')' iE with
        | .err f t => .err f (addCtx i.off "Column Definitions" t)
        | .ok iF _ =>
          match ms1 iF with
          | .err f t => .err f (addCtx i.off "Column Definitions" t)
          | .ok iG _ =>
            match tagNoCase "values" iG with
            | .err f t => .err f (addCtx i.off "Column Definitions" t)
            | .ok iH _ =>
              match ms1 iH with
              | .err f t => .err f (addCtx i.off "Column Definitions" t)
              | .ok iI _ => .ok iI ns

/-- The name-resolution loop of parse_values: each identifier is looked up
in the column map and pushed at index 0 of columns_found (so the finished
vector holds the resolved pairs in reverse statement order); an unknown
name aborts with the external ColumnNotFound error at that name's span. -/
def resolveCols (cols : ColumnMap) : List Sp → List (Sp × Column) →
    Except ErrTree (List (Sp × Column))
  | [], acc => .ok acc
  | n :: rest, acc =>
    match alookup n.s cols with
    | some col => resolveCols cols rest ((n, col) :: acc)
    | none => .error (.base n.off (.external "Column not found"))

/-- Second phase of parse_values: the value list, under context
"Column Values": terminated(delimited(char lparen, delimited(ms0,
context "Column Names" (comma_sep rowParse), ms0), char rparen), ms0),
threading the row-parser stack. -/
def phase2 (found : List (Sp × Column)) (i : Sp) :
    List (Sp × Column) × PRes (List (Sp × (Sp × Value))) :=
  match pchar '(' i with
  | .err f t => (found, .err f (addCtx i.off "Column Values" t))
  | .ok iA _ =>
    let iB := ms0adv iA
    match sepRowAll found (ms0adv iB) with
    | (st, .err f t) =>
      (st, .err f (addCtx i.off "Column Values" (addCtx iB.off "Column Names" t)))
    | (st, .ok iD vals) =>
      let iF := ms0adv (ms0adv iD)
      match pchar ')' iF with
      | .err f t => (st, .err f (addCtx i.off "Column Values" t))
      | .ok iG _ => (st, .ok (ms0adv iG) vals)

/-- parse_values from src/ast/commands/insert.rs: names phase, resolution,
values phase, then the final leftover-column check (a pop of the remaining
stack; a leftover column is the external ColumnNotUsed error at its name
span). -/
def parseValues (cols : ColumnMap) (i : Sp) :
    PRes (List (Sp × (Sp × Value))) :=
  match phase1 i with
  | .err f t => .err f t
  | .ok i1 ns =>
    match resolveCols cols ns [] with
    | .error t => .err false t
    | .ok found =>
      match phase2 found i1 with
      | (_, .err f t) => .err f t
      | (st, .ok i2 vals) =>
        match vecPop st with
        | some (_, (nameSp, _)) =>
          .err false (.base nameSp.off (.external "Column declared, but not used"))
        | none => .ok i2 vals

/-- Statement (INSERT) from src/ast/commands/insert.rs. -/
structure InsertStmt where
  tableName : Sp
  values : List (Sp × (Sp × Value))
deriving DecidableEq, Repr

/-- Statement::parse_with_table_map from src/ast/commands/insert.rs:
context "Insert Statement" around tuple(tag_no_case "insert",
preceded(ms1, tag_no_case "into"), preceded(ms1,
map_opt(context "Table Name" identifier, catalog lookup))), then
context "Insert Statement" around parse_values.  Note: no leading
whitespace is skipped before the insert keyword. -/
def insertParse (tm : TableMap) (i : Sp) : PRes InsertStmt :=
  match tagNoCase "insert" i with
  | .err f t => .err f (addCtx i.off "Insert Statement" t)
  | .ok iA _ =>
    match ms1 iA with
    | .err f t => .err f (addCtx i.off "Insert Statement" t)
    | .ok iB _ =>
      match tagNoCase "into" iB with
      | .err f t => .err f (addCtx i.off "Insert Statement" t)
      | .ok iC _ =>
        match ms1 iC with
        | .err f t => .err f (addCtx i.off "Insert Statement" t)
        | .ok iD _ =>
          match identifier iD with
          | .err f t =>
            .err f (addCtx i.off "Insert Statement" (addCtx iD.off "Table Name" t))
          | .ok iE nameSp =>
            match alookup nameSp.s tm with
            | none =>
              .err false (addCtx i.off "Insert Statement" (.base iD.off (.kind "MapOpt")))
            | some cols =>
              match parseValues cols iE with
              | .err f t => .err f (addCtx iE.off "Insert Statement" t)
              | .ok iF vals => .ok iF ⟨nameSp, vals⟩

/-- nom_supreme ErrorTree::or: merge two alternation candidates,
flattening nested Alt nodes. -/
def orTree : ErrTree → ErrTree → ErrTree
  | .alt a, .alt b => .alt (a ++ b)
  | .alt a, e => .alt (a ++ [e])
  | e, .alt b => .alt (e :: b)
  | e1, e2 => .alt [e1, e2]

/-- Remainder of nom alt: try candidates in order, accumulating recoverable
errors with or; a fatal error or a success short-circuits.  (ErrorTree's
append ignores the final ErrorKind::Alt marker nom adds.) -/
def altGo (i : Sp) (acc : ErrTree) : List (Sp → PRes α) → PRes α
  | [] => .err false acc
  | p :: ps =>
    match p i with
    | .ok r v => .ok r v
    | .err true t => .err true t
    | .err false t => altGo i (orTree acc t) ps

/-- nom alt over a nonempty list of candidate parsers. -/
def altRun (p : Sp → PRes α) (ps : List (Sp → PRes α)) (i : Sp) : PRes α :=
  match p i with
  | .ok r v => .ok r v
  | .err true t => .err true t
  | .err false t => altGo i t ps

/-- The varchar(N) alternative of SqlType::parse:
preceded(tag_no_case "varchar", delimited(char lparen, usize::parse,
char rparen)) mapped to SqlType::VarChar.  usize is 64-bit unsigned. -/
def varcharTypeArm (i : Sp) : PRes SqlType :=
  match tagNoCase "varchar" i with
  | .err f t => .err f t
  | .ok i1 _ =>
    match pchar '(' i1 with
    | .err f t => .err f t
    | .ok i2 _ =>
      match intValueParse false 64 i2 with
      | .err f t => .err f t
      | .ok i3 n =>
        match pchar ')' i3 with
        | .err f t => .err f t
        | .ok i4 _ => .ok i4 (.varChar n.toNat)

/-- A keyword alternative of SqlType::parse. -/
def keywordTypeArm (kw : String) (tp : SqlType) (i : Sp) : PRes SqlType :=
  match tagNoCase kw i with
  | .err f t => .err f t
  | .ok i1 _ => .ok i1 tp

/-- SqlType::parse from src/ast/commands/create.rs: context "Column Type"
around the ordered alternation of varchar(N) and the ten integer keywords. -/
def sqlTypeParse (i : Sp) : PRes SqlType :=
  ctx "Column Type" i (altRun varcharTypeArm
    [keywordTypeArm "int8" .i8, keywordTypeArm "int16" .i16,
     keywordTypeArm "int32" .i32, keywordTypeArm "int64" .i64,
     keywordTypeArm "int128" .i128, keywordTypeArm "uint8" .u8,
     keywordTypeArm "uint16" .u16, keywordTypeArm "uint32" .u32,
     keywordTypeArm "uint64" .u64, keywordTypeArm "uint128" .u128] i)

/-- RawColumn from src/ast/commands/create.rs: name span plus type with its
span. -/
structure RawColumn where
  name : Sp
  tp : Sp × SqlType
deriving DecidableEq, Repr

/-- RawColumn::parse: context "Column" around tuple(context "Column Name"
identifier, char space, parse_with_span SqlType::parse).  Exactly one
literal space separates name and type. -/
def rawColumnParse (i : Sp) : PRes RawColumn :=
  match identifier i with
  | .err f t => .err f (addCtx i.off "Column" (addCtx i.off "Column Name" t))
  | .ok i1 nameSp =>
    match pchar ' ' i1 with
    | .err f t => .err f (addCtx i.off "Column" t)
    | .ok i2 _ =>
      match withSpan i2 (sqlTypeParse i2) with
      | .err f t => .err f (addCtx i.off "Column" t)
      | .ok i3 tpw => .ok i3 ⟨nameSp, tpw⟩

/-- column_definitions from src/ast/commands/create.rs:
context "Column Definitions" around delimited(char lparen,
comma_sep RawColumn::parse, char rparen). -/
def columnDefs (i : Sp) : PRes (List RawColumn) :=
  match pchar '(' i with
  | .err f t => .err f (addCtx i.off "Column Definitions" t)
  | .ok i1 _ =>
    match commaSep rawColumnParse i1 with
    | .err f t => .err f (addCtx i.off "Column Definitions" t)
    | .ok i2 cols =>
      match pchar ')' i2 with
      | .err f t => .err f (addCtx i.off "Column Definitions" t)
      | .ok i3 _ => .ok i3 cols

/-- Statement (CREATE TABLE) from src/ast/commands/create.rs.  The stored
table name is rebuilt from the raw fragment (LocatedSpan::from), which
resets its offset to zero. -/
structure CreateStmt where
  tableName : Sp
  columns : List RawColumn
deriving DecidableEq, Repr

/-- Statement::parse for CREATE TABLE: context "Create Table" around
separated_pair(preceded(tuple(ms0, tag_no_case "create", ms1,
tag_no_case "table", ms1), context "Table Name" identifier), ms1,
column_definitions).  Note the leading multispace0: whitespace before the
create keyword is allowed. -/
def createParse (i : Sp) : PRes CreateStmt :=
  let iA := ms0adv i
  match tagNoCase "create" iA with
  | .err f t => .err f (addCtx i.off "Create Table" t)
  | .ok iB _ =>
    match ms1 iB with
    | .err f t => .err f (addCtx i.off "Create Table" t)
    | .ok iC _ =>
      match tagNoCase "table" iC with
      | .err f t => .err f (addCtx i.off "Create Table" t)
      | .ok iD _ =>
        match ms1 iD with
        | .err f t => .err f (addCtx i.off "Create Table" t)
        | .ok iE _ =>
          match identifier iE with
          | .err f t =>
            .err f (addCtx i.off "Create Table" (addCtx iE.off "Table Name" t))
          | .ok iF nameSp =>
            match ms1 iF with
            | .err f t => .err f (addCtx i.off "Create Table" t)
            | .ok iG _ =>
              match columnDefs iG with
              | .err f t => .err f (addCtx i.off "Create Table" t)
              | .ok iH cols => .ok iH ⟨⟨0, nameSp.s⟩, cols⟩

/-- nom all_consuming: succeed only when the inner parser leaves no input;
otherwise ErrorKind::Eof at the leftover position. -/
def allConsuming (f : Sp → PRes α) (i : Sp) : PRes α :=
  match f i with
  | .ok r v => if r.s.length = 0 then .ok r v else .err false (.base r.off (.kind "Eof"))
  | .err f2 t => .err f2 t

/-- Formatted diagnostic of src/errors.rs FormattedError: primary cause
with its anchor offset and the accumulated related context annotations. -/
structure FmtErr where
  off : Nat
  kind : ErrKind
  others : List (Nat × String)
deriving DecidableEq, Repr

/-- Rust Iterator::max_by_key step (max_by keeps the new element when the
accumulator does not compare greater, so the LAST maximum wins). -/
def maxStep (a b : FmtErr) : FmtErr :=
  if a.others.length ≤ b.others.length then b else a

/-- max_by_key over the formatted alternation candidates (first element is
the seed; empty alternations cannot arise from the parser). -/
def maxByOthersLen : List FmtErr → FmtErr
  | [] => ⟨0, .kind "EmptyAlt", []⟩
  | f :: fs => fs.foldl maxStep f

mutual

/-- format_parse_error from src/errors.rs: a base cause becomes a primary
label at its offset; a stack appends its context annotations after the
formatted base's; an alternation formats every candidate and keeps the one
with the most context annotations via max_by_key. -/
def formatParseError : ErrTree → FmtErr
  | .base off k => ⟨off, k, []⟩
  | .stack b ctxs =>
    let f := formatParseError b
    ⟨f.off, f.kind, f.others ++ ctxs⟩
  | .alt es => maxByOthersLen (fmtAltList es)

/-- Formatting of the candidate list of an alternation. -/
def fmtAltList : List ErrTree → List FmtErr
  | [] => []
  | e :: es => formatParseError e :: fmtAltList es

end

/-- parse_format_error from src/parse.rs specialised to CREATE TABLE:
all_consuming around Statement::parse, formatting any error. -/
def parseCreateTable (text : List Char) : Except FmtErr CreateStmt :=
  match allConsuming createParse ⟨0, text⟩ with
  | .ok _ v => .ok v
  | .err _ t => .error (formatParseError t)

/-- parse_format_error specialised to INSERT with a borrowed catalog:
all_consuming around Statement::parse_with_table_map. -/
def parseInsert (tm : TableMap) (text : List Char) : Except FmtErr InsertStmt :=
  match allConsuming (insertParse tm) ⟨0, text⟩ with
  | .ok _ v => .ok v
  | .err _ t => .error (formatParseError t)

/-! ## Specification-side definitions

These two definitions transcribe the wording of the specification (not the
code); they are used to compare spec claims with the code's behaviour. -/

/-- Modelled from the spec wording of claim C2: the length of a quoted
literal body after unescaping, counting each two-character escape sequence
as a single decoded character. -/
def decodedLength : List Char → Nat
  | [] => 0
  | c :: rest =>
    if c = bs then
      match rest with
      | [] => 1
      | _ :: rest2 => 1 + decodedLength rest2
    else 1 + decodedLength rest

/-- Modelled from the spec wording of claim C6: a scan of a maximal run of
ASCII digits preceded by at most one optional leading minus sign. -/
def claimIntScan : List Char → List Char
  | '-' :: rest => '-' :: rest.takeWhile isDigitChar
  | l => l.takeWhile isDigitChar

/-! ## Helper lemmas -/

theorem takeWhile_dropWhile_nil (p : Char → Bool) :
    ∀ l : List Char, (l.dropWhile p).takeWhile p = [] := by
  intro l
  induction l with
  | nil => rfl
  | cons c rest ih =>
    by_cases hc : p c
    · simp [List.dropWhile, hc, ih]
    · simp [List.dropWhile, List.takeWhile, hc]

theorem dropWhile_dropWhile (p : Char → Bool) (l : List Char) :
    (l.dropWhile p).dropWhile p = l.dropWhile p := by
  induction l with
  | nil => rfl
  | cons c rest ih =>
    by_cases hc : p c
    · simp [List.dropWhile, hc, ih]
    · simp [List.dropWhile, hc]

theorem ms0adv_idem (i : Sp) : ms0adv (ms0adv i) = ms0adv i := by
  simp [ms0adv, takeWhile_dropWhile_nil, dropWhile_dropWhile]

theorem vecPop_nil : vecPop ([] : List α) = none := rfl

theorem vecPop_reverse_cons (p : α) (rest : List α) :
    vecPop ((p :: rest).reverse) = some (rest.reverse, p) := by
  simp [vecPop, List.reverse_cons, List.getLast?_concat, List.dropLast_concat]

theorem vecPop_eq_none {l : List α} (h : vecPop l = none) : l = [] := by
  cases l with
  | nil => rfl
  | cons a t =>
    exfalso
    unfold vecPop at h
    rw [List.getLast?_eq_getLast (a :: t) (by simp)] at h
    simp at h

theorem sepParse_head {i iS : Sp} {u : Unit} (h : sepParse i = .ok iS u) :
    ∃ t, (ms0adv i).s = ',' :: t := by
  unfold sepParse pchar at h
  cases hm : (ms0adv i).s with
  | nil => rw [hm] at h; simp at h
  | cons a t =>
    rw [hm] at h
    by_cases ha : a = ','
    · exact ⟨t, by rw [ha]⟩
    · simp [ha] at h

theorem reverse_drop_eq_nil {l : List α} {n : Nat}
    (h : (l.drop n).reverse = []) : l.length ≤ n := by
  have h2 : l.drop n = [] := by
    cases hd : l.drop n with
    | nil => rfl
    | cons a t => rw [hd] at h; simp at h
  simpa [List.drop_eq_nil_iff] using h2

/-- The positional binding produced by the value-list loop: the j-th bound
value is keyed by the j-th resolved column name (statement order) and was
produced by a run of the type-directed value parser at that column's
declared type. -/
def BindsOk (R : List (Sp × Column)) (new : List (Sp × (Sp × Value))) : Prop :=
  ∀ j (hj : j < new.length), ∃ hR : j < R.length,
    (new.get ⟨j, hj⟩).1 = (R.get ⟨j, hR⟩).1 ∧
    ∃ a b, valueParseWithType ((R.get ⟨j, hR⟩).2).tp a = .ok b (new.get ⟨j, hj⟩).2

theorem bindsOk_nil (R : List (Sp × Column)) : BindsOk R [] := by
  intro j hj; simp at hj

theorem bindsOk_cons {pn : Sp} {pc : Column} {rest : List (Sp × Column)}
    {a b : Sp} {v : Sp × Value} {new : List (Sp × (Sp × Value))}
    (hv : valueParseWithType pc.tp a = .ok b v) (hrest : BindsOk rest new) :
    BindsOk ((pn, pc) :: rest) ((pn, v) :: new) := by
  intro j hj
  cases j with
  | zero => exact ⟨by simp, by simp, a, b, by simpa using hv⟩
  | succ j2 =>
    obtain ⟨hR, hname, wa, wb, hw⟩ := hrest j2 (by simpa using hj)
    exact ⟨by simpa using hR, by simpa using hname, wa, wb, by simpa using hw⟩

theorem sepRowLoop_spec :
    ∀ (fuel : Nat) (R : List (Sp × Column)) (acc : List (Sp × (Sp × Value)))
      (i : Sp) (st : List (Sp × Column)) (iE : Sp)
      (vals : List (Sp × (Sp × Value))),
      sepRowLoop R.reverse acc i fuel = (st, .ok iE vals) →
      ∃ new, vals = acc ++ new ∧ BindsOk R new ∧
        ((st = (R.drop new.length).reverse ∧ new.length ≤ R.length) ∨
         (∃ iS, sepParse iE = .ok iS () ∧
          st = (R.drop (new.length + 1)).reverse ∧ new.length + 1 ≤ R.length)) := by
  intro fuel
  induction fuel with
  | zero =>
    intro R acc i st iE vals h
    unfold sepRowLoop at h
    simp at h
  | succ fuel IH =>
    intro R acc i st iE vals h
    unfold sepRowLoop at h
    cases hsep : sepParse i with
    | err f t =>
      cases f with
      | true => rw [hsep] at h; simp at h
      | false =>
        rw [hsep] at h
        dsimp only at h
        rw [Prod.mk.injEq] at h
        obtain ⟨h1, h2⟩ := h
        injection h2 with h2a h2b
        refine ⟨[], by simp [h2b.symm], bindsOk_nil R, Or.inl ⟨?_, by simp⟩⟩
        simp [h1.symm]
    | ok i1 u =>
      rw [hsep] at h
      dsimp only at h
      by_cases hlen : i1.s.length = i.s.length
      · rw [if_pos hlen] at h; simp at h
      · rw [if_neg hlen] at h
        cases R with
        | nil =>
          rw [show rowParse (([] : List (Sp × Column)).reverse) i1 =
              ([], .err false (.base i1.off (.expectedChar ')'))) from rfl] at h
          dsimp only at h
          rw [Prod.mk.injEq] at h
          obtain ⟨h1, h2⟩ := h
          injection h2 with h2a h2b
          exact ⟨[], by simp [h2b.symm], bindsOk_nil [], Or.inl ⟨by simp [h1.symm], by simp⟩⟩
        | cons p rest =>
          obtain ⟨pn, pc⟩ := p
          have hrp := vecPop_reverse_cons (pn, pc) rest
          cases hv : valueParseWithType pc.tp i1 with
          | ok i2 v =>
            rw [show rowParse (((pn, pc) :: rest).reverse) i1 =
                (rest.reverse, .ok i2 (pn, v)) by unfold rowParse; rw [hrp]; dsimp only; rw [hv]] at h
            dsimp only at h
            obtain ⟨new2, hvals, hbo, hdisj⟩ := IH rest (acc ++ [(pn, v)]) i2 st iE vals h
            refine ⟨(pn, v) :: new2, by simp [hvals], bindsOk_cons hv hbo, ?_⟩
            rcases hdisj with ⟨hst, hle⟩ | ⟨iS, hs2, hst, hle⟩
            · exact Or.inl ⟨by simpa using hst, by simp; omega⟩
            · exact Or.inr ⟨iS, hs2, by simpa using hst, by simp; omega⟩
          | err fa t =>
            cases fa with
            | true =>
              rw [show rowParse (((pn, pc) :: rest).reverse) i1 =
                  (rest.reverse, .err true t) by unfold rowParse; rw [hrp]; dsimp only; rw [hv]] at h
              dsimp only at h
              simp at h
            | false =>
              rw [show rowParse (((pn, pc) :: rest).reverse) i1 =
                  (rest.reverse, .err false t) by unfold rowParse; rw [hrp]; dsimp only; rw [hv]] at h
              dsimp only at h
              rw [Prod.mk.injEq] at h
              obtain ⟨h1, h2⟩ := h
              injection h2 with h2a h2b
              refine ⟨[], by simp [h2b.symm], bindsOk_nil _, Or.inr ⟨i1, ?_, ?_, by simp⟩⟩
              · rw [h2a.symm]; cases u; exact hsep
              · simp [h1.symm]

theorem sepRowAll_spec {R : List (Sp × Column)} {i iE : Sp} {st : List (Sp × Column)}
    {vals : List (Sp × (Sp × Value))}
    (h : sepRowAll R.reverse i = (st, .ok iE vals)) :
    BindsOk R vals ∧
      ((st = (R.drop vals.length).reverse ∧ vals.length ≤ R.length) ∨
       (∃ iS, sepParse iE = .ok iS () ∧
        st = (R.drop (vals.length + 1)).reverse ∧ vals.length + 1 ≤ R.length)) := by
  unfold sepRowAll at h
  cases R with
  | nil =>
    rw [show rowParse (([] : List (Sp × Column)).reverse) i =
        ([], .err false (.base i.off (.expectedChar ')'))) from rfl] at h
    dsimp only at h
    simp at h
  | cons p rest =>
    obtain ⟨pn, pc⟩ := p
    have hrp := vecPop_reverse_cons (pn, pc) rest
    cases hv : valueParseWithType pc.tp i with
    | ok i2 v =>
      rw [show rowParse (((pn, pc) :: rest).reverse) i =
          (rest.reverse, .ok i2 (pn, v)) by unfold rowParse; rw [hrp]; dsimp only; rw [hv]] at h
      dsimp only at h
      obtain ⟨new2, hvals, hbo, hdisj⟩ :=
        sepRowLoop_spec (i2.s.length + 1) rest [(pn, v)] i2 st iE vals h
      have hvals2 : vals = (pn, v) :: new2 := by simpa using hvals
      subst hvals2
      refine ⟨bindsOk_cons hv hbo, ?_⟩
      rcases hdisj with ⟨hst, hle⟩ | ⟨iS, hs2, hst, hle⟩
      · exact Or.inl ⟨by simpa using hst, by simp; omega⟩
      · exact Or.inr ⟨iS, hs2, by simpa using hst, by simp; omega⟩
    | err fa t =>
      rw [show rowParse (((pn, pc) :: rest).reverse) i =
          (rest.reverse, .err fa t) by unfold rowParse; rw [hrp]; dsimp only; rw [hv]] at h
      dsimp only at h
      simp at h

theorem resolveCols_spec (cols : ColumnMap) :
    ∀ (ns : List Sp) (acc found : List (Sp × Column)),
      resolveCols cols ns acc = .ok found →
      ∃ R : List (Sp × Column), found = R.reverse ++ acc ∧ R.length = ns.length ∧
        ∀ j (hj : j < ns.length), ∃ hR : j < R.length,
          (R.get ⟨j, hR⟩).1 = ns.get ⟨j, hj⟩ ∧
          alookup (ns.get ⟨j, hj⟩).s cols = some (R.get ⟨j, hR⟩).2 := by
  intro ns
  induction ns with
  | nil =>
    intro acc found h
    unfold resolveCols at h
    injection h with h1
    exact ⟨[], by simp [h1.symm], rfl, by intro j hj; simp at hj⟩
  | cons n rest ih =>
    intro acc found h
    unfold resolveCols at h
    cases hl : alookup n.s cols with
    | none => rw [hl] at h; simp at h
    | some col =>
      rw [hl] at h
      dsimp only at h
      obtain ⟨R2, hfound, hlen, hpt⟩ := ih ((n, col) :: acc) found h
      refine ⟨(n, col) :: R2, by simp [hfound], by simp [hlen], ?_⟩
      intro j hj
      cases j with
      | zero => exact ⟨by simp, by simp, by simpa using hl⟩
      | succ j2 =>
        obtain ⟨hR, h1, h2⟩ := hpt j2 (by simpa using hj)
        exact ⟨by simpa using hR, by simpa using h1, by simpa using h2⟩

theorem phase2_spec {R : List (Sp × Column)} {i i2 : Sp}
    {st : List (Sp × Column)} {vals : List (Sp × (Sp × Value))}
    (h : phase2 R.reverse i = (st, .ok i2 vals)) :
    BindsOk R vals ∧ st = (R.drop vals.length).reverse ∧
      vals.length ≤ R.length := by
  unfold phase2 at h
  cases hp : pchar '(' i with
  | err f t => rw [hp] at h; dsimp only at h; simp at h
  | ok iA c =>
    rw [hp] at h
    dsimp only at h
    rcases hall : sepRowAll R.reverse (ms0adv (ms0adv iA)) with ⟨st0, res0⟩
    rw [hall] at h
    cases res0 with
    | err f t => dsimp only at h; simp at h
    | ok iD vals0 =>
      dsimp only at h
      cases hcl : pchar ')' (ms0adv (ms0adv iD)) with
      | err f t => rw [hcl] at h; dsimp only at h; simp at h
      | ok iG c2 =>
        rw [hcl] at h
        dsimp only at h
        rw [Prod.mk.injEq] at h
        obtain ⟨h1, h2⟩ := h
        injection h2 with h2a h2b
        subst h1 h2b
        obtain ⟨hbo, hdisj⟩ := sepRowAll_spec hall
        rcases hdisj with ⟨hst, hle⟩ | ⟨iS, hs2, hst, hle⟩
        · exact ⟨hbo, hst, hle⟩
        · exfalso
          obtain ⟨tl, htl⟩ := sepParse_head hs2
          rw [ms0adv_idem, pchar, htl] at hcl
          simp at hcl

theorem parseValues_ok_spec {cols : ColumnMap} {input i1 i2 : Sp}
    {ns : List Sp} {vals : List (Sp × (Sp × Value))}
    (h1 : phase1 input = .ok i1 ns)
    (h : parseValues cols input = .ok i2 vals) :
    vals.length = ns.length ∧
    ∀ j (hv : j < vals.length) (hn : j < ns.length),
      (vals.get ⟨j, hv⟩).1 = ns.get ⟨j, hn⟩ ∧
      ∃ col, alookup (ns.get ⟨j, hn⟩).s cols = some col ∧
        ∃ a b, valueParseWithType col.tp a = .ok b (vals.get ⟨j, hv⟩).2 := by
  unfold parseValues at h
  rw [h1] at h
  dsimp only at h
  cases hres : resolveCols cols ns [] with
  | error t => rw [hres] at h; simp at h
  | ok found =>
    rw [hres] at h
    dsimp only at h
    obtain ⟨R, hfound, hlen, hpt⟩ := resolveCols_spec cols ns [] found hres
    rw [List.append_nil] at hfound
    rcases hph : phase2 found i1 with ⟨st0, res0⟩
    rw [hph] at h
    cases res0 with
    | err f t => dsimp only at h; simp at h
    | ok iD vals0 =>
      dsimp only at h
      cases hpop : vecPop st0 with
      | some pr => rw [hpop] at h; rcases pr with ⟨st2, nm, cl⟩; simp at h
      | none =>
        rw [hpop] at h
        dsimp only at h
        obtain ⟨hiD, hvv⟩ : iD = i2 ∧ vals0 = vals := by simpa using h
        have hst0 : st0 = [] := vecPop_eq_none hpop
        rw [hfound] at hph
        obtain ⟨hbo, hst, hle⟩ := phase2_spec hph
        rw [hvv] at hbo hst hle
        rw [hst0] at hst
        have hge : R.length ≤ vals.length := reverse_drop_eq_nil hst.symm
        have hlv : vals.length = R.length := le_antisymm hle hge
        refine ⟨by rw [hlv, hlen], ?_⟩
        intro j hv hn
        obtain ⟨hR, hname, wa, wb, hw⟩ := hbo j hv
        obtain ⟨hR2, hname2, hl2⟩ := hpt j hn
        have hRR : hR2 = hR := rfl
        refine ⟨by rw [hname]; exact hname2, (R.get ⟨j, hR⟩).2, ?_, wa, wb, hw⟩
        simpa using hl2

/-! ## Concrete fixtures (the catalog of the repository's tests and the
catalog of the specification's permutation example) -/

/-- The test_table catalog of the repository's insert tests:
id int32, name varchar(255). -/
def testCols : ColumnMap :=
  [("id".data, ⟨"id".data, .i32⟩), ("name".data, ⟨"name".data, .varChar 255⟩)]

/-- Table map holding test_table. -/
def testTm : TableMap := [("test_table".data, testCols)]

/-- The spec's permutation example catalog: t(a int8, b int8). -/
def colsC1 : ColumnMap :=
  [("a".data, ⟨"a".data, .i8⟩), ("b".data, ⟨"b".data, .i8⟩)]

/-- Table map holding t. -/
def tmC1 : TableMap := [("t".data, colsC1)]

/-! ## Claim C1 -/

/-- C1: for every INSERT whose column-name list resolves against the
catalog, the value list of a successful parse pairs the j-th value with the
j-th name of the statement's column-name list, and that value was produced
by a run of the type-directed value parser at the declared type of the
column the catalog binds to that NAME (not to the table's declaration
order). -/
theorem c1_insert_binds_by_name_position
    (cols : ColumnMap) (input i1 i2 : Sp) (ns : List Sp)
    (vals : List (Sp × (Sp × Value)))
    (h1 : phase1 input = .ok i1 ns)
    (h : parseValues cols input = .ok i2 vals) :
    vals.length = ns.length ∧
    ∀ j (hv : j < vals.length) (hn : j < ns.length),
      (vals.get ⟨j, hv⟩).1 = ns.get ⟨j, hn⟩ ∧
      ∃ col, alookup (ns.get ⟨j, hn⟩).s cols = some col ∧
        ∃ a b, valueParseWithType col.tp a = .ok b (vals.get ⟨j, hv⟩).2 :=
  parseValues_ok_spec h1 h

/-- C1 witness: the spec's permutation example.  Against t(a int8, b int8),
INSERT INTO t (b, a) VALUES (2, 1) succeeds and binds b=2 and a=1, and the
positional-binding theorem applies to its value phase. -/
theorem c1_insert_binds_by_name_position_witness :
    insertParse tmC1 ⟨0, "INSERT INTO t (b, a) VALUES (2, 1)".data⟩ =
      .ok ⟨34, []⟩ ⟨⟨12, "t".data⟩,
        [(⟨15, "b".data⟩, (⟨29, "2".data⟩, .i8 2)),
         (⟨18, "a".data⟩, (⟨32, "1".data⟩, .i8 1))]⟩ ∧
    ([(⟨15, "b".data⟩, (⟨29, "2".data⟩, .i8 2)),
      (⟨18, "a".data⟩, (⟨32, "1".data⟩, .i8 1))] :
        List (Sp × (Sp × Value))).length =
      ([⟨15, "b".data⟩, ⟨18, "a".data⟩] : List Sp).length :=
  ⟨rfl,
   (c1_insert_binds_by_name_position colsC1 ⟨13, " (b, a) VALUES (2, 1)".data⟩
      ⟨28, "(2, 1)".data⟩ ⟨34, []⟩ [⟨15, "b".data⟩, ⟨18, "a".data⟩]
      [(⟨15, "b".data⟩, (⟨29, "2".data⟩, .i8 2)),
       (⟨18, "a".data⟩, (⟨32, "1".data⟩, .i8 1))] rfl rfl).1⟩

/-! ## Claim C3 -/

/-- C3 counterexample: the claim says the length of values equals the
number of columns DECLARED for the table.  But INSERT INTO test_table (id)
VALUES (2) parses successfully against the two-column test_table catalog
with a values sequence of length one: no rule forces the name list to
cover the declared columns. -/
theorem c3_counterexample :
    insertParse testTm ⟨0, "INSERT INTO test_table (id) VALUES (2)".data⟩ =
      .ok ⟨38, []⟩ ⟨⟨12, "test_table".data⟩,
        [(⟨24, "id".data⟩, (⟨36, "2".data⟩, .i32 2))]⟩ ∧
    alookup "test_table".data testTm = some testCols ∧
    testCols.length = 2 ∧
    ([(⟨24, "id".data⟩, (⟨36, "2".data⟩, .i32 2))] :
        List (Sp × (Sp × Value))).length = 1 :=
  ⟨rfl, rfl, rfl, rfl⟩

/-- C3 (amended): for a successful INSERT parse, the keys of the values
sequence are exactly the statement's column-name list, in order — so its
length equals the number of names in the statement's list (not the number
of columns declared for the table), and each listed name occurs among the
values exactly as often as it occurs in the list. -/
theorem c3_values_keyed_by_name_list
    (cols : ColumnMap) (input i1 i2 : Sp) (ns : List Sp)
    (vals : List (Sp × (Sp × Value)))
    (h1 : phase1 input = .ok i1 ns)
    (h : parseValues cols input = .ok i2 vals) :
    vals.map Prod.fst = ns := by
  obtain ⟨hlen, hpt⟩ := parseValues_ok_spec h1 h
  apply List.ext_get (by simpa using hlen)
  intro j h1j h2j
  have hj : j < vals.length := by simpa using h1j
  have := (hpt j hj h2j).1
  simpa using this

/-- C3 amended witness: the single-column insert above has its values keyed
exactly by the one-element name list. -/
theorem c3_values_keyed_by_name_list_witness :
    ([(⟨24, "id".data⟩, (⟨36, "2".data⟩, .i32 2))] :
        List (Sp × (Sp × Value))).map Prod.fst =
      ([⟨24, "id".data⟩] : List Sp) :=
  c3_values_keyed_by_name_list testCols ⟨22, " (id) VALUES (2)".data⟩
    ⟨35, "(2)".data⟩ ⟨38, []⟩ [⟨24, "id".data⟩]
    [(⟨24, "id".data⟩, (⟨36, "2".data⟩, .i32 2))] rfl rfl

/-! ## Claim C4 -/

/-- C4: when the column-name list has more names than the VALUES list has
value literals (all names resolving, all provided values well-typed — i.e.
the value phase succeeds and leaves resolved columns on the stack),
parse_values fails with the external column-declared-but-not-used error
anchored at the span of the name at position (number of values) in the
statement's name list: the first name, in statement order, that received no
value. -/
theorem c4_column_not_used
    (cols : ColumnMap) (input i1 iD : Sp) (ns : List Sp)
    (found st : List (Sp × Column)) (vals : List (Sp × (Sp × Value)))
    (h1 : phase1 input = .ok i1 ns)
    (hres : resolveCols cols ns [] = .ok found)
    (hph : phase2 found i1 = (st, .ok iD vals))
    (hne : st ≠ []) :
    ∃ hlt : vals.length < ns.length,
      parseValues cols input =
        .err false (.base ((ns.get ⟨vals.length, hlt⟩).off)
          (.external "Column declared, but not used")) := by
  obtain ⟨R, hfound, hlen, hpt⟩ := resolveCols_spec cols ns [] found hres
  rw [List.append_nil] at hfound
  have hphR := hph
  rw [hfound] at hphR
  obtain ⟨hbo, hst, hle⟩ := phase2_spec hphR
  have hkR : vals.length < R.length := by
    rcases Nat.lt_or_ge vals.length R.length with hk | hk
    · exact hk
    · exfalso
      apply hne
      rw [hst]
      have hnil : R.drop vals.length = [] := by
        rw [List.drop_eq_nil_iff]; exact hk
      rw [hnil, List.reverse_nil]
  have hkns : vals.length < ns.length := hlen ▸ hkR
  refine ⟨hkns, ?_⟩
  unfold parseValues
  rw [h1]
  dsimp only
  rw [hres]
  dsimp only
  rw [hph]
  dsimp only
  have hdrop : R.drop vals.length = R.get ⟨vals.length, hkR⟩ :: R.drop (vals.length + 1) := by
    rw [List.drop_eq_getElem_cons hkR]
    simp [List.get_eq_getElem]
  rw [hst, hdrop, vecPop_reverse_cons]
  dsimp only
  obtain ⟨hR2, hname2, hl2⟩ := hpt vals.length hkns
  have hname3 : (R.get ⟨vals.length, hkR⟩).1 = ns.get ⟨vals.length, hkns⟩ := hname2
  rw [hname3]

/-- C4 witness: the repository's fewer-values test.  In
INSERT INTO test_table (id, name) VALUES ( 2), the value phase binds only
the id column and the parse fails with column-declared-but-not-used
anchored at offset 28, the span of the name at position 1 (name), the first
unmatched name in statement order. -/
theorem c4_column_not_used_witness :
    (1 : Nat) < ([⟨24, "id".data⟩, ⟨28, "name".data⟩] : List Sp).length ∧
    parseValues testCols ⟨22, " (id, name) VALUES ( 2) ".data⟩ =
      .err false (.base 28 (.external "Column declared, but not used")) := by
  obtain ⟨hlt, he⟩ := c4_column_not_used testCols ⟨22, " (id, name) VALUES ( 2) ".data⟩
    ⟨41, "( 2) ".data⟩ ⟨46, []⟩
    [⟨24, "id".data⟩, ⟨28, "name".data⟩]
    [(⟨28, "name".data⟩, ⟨"name".data, .varChar 255⟩),
     (⟨24, "id".data⟩, ⟨"id".data, .i32⟩)]
    [(⟨28, "name".data⟩, ⟨"name".data, .varChar 255⟩)]
    [(⟨24, "id".data⟩, (⟨43, "2".data⟩, .i32 2))]
    rfl rfl rfl (by simp)
  exact ⟨hlt, he⟩

/-! ## Claim C5 -/

/-- C5 (amended): when the value phase has bound a value for every name and
a comma (the start of an excess value) follows, parse_values fails with an
expected-closing-parenthesis error positioned at that comma separator —
the position where the value list would have to close — under the
Column Values context; it is NOT positioned at the first excess value
literal, which starts only after the comma and any whitespace. -/
theorem c5_excess_values_error_at_comma
    (cols : ColumnMap) (input i1 iA iD iS : Sp) (c : Char) (ns : List Sp)
    (found : List (Sp × Column)) (vals : List (Sp × (Sp × Value)))
    (h1 : phase1 input = .ok i1 ns)
    (hres : resolveCols cols ns [] = .ok found)
    (hop : pchar '(' i1 = .ok iA c)
    (hall : sepRowAll found (ms0adv (ms0adv iA)) = ([], .ok iD vals))
    (hsep : sepParse iD = .ok iS ())
    (hfull : vals.length = ns.length) :
    (∃ t, (ms0adv iD).s = ',' :: t) ∧
    parseValues cols input =
      .err false (.stack (.base ((ms0adv iD).off) (.expectedChar ')'))
        [(i1.off, "Column Values")]) := by
  obtain ⟨tl, htl⟩ := sepParse_head hsep
  refine ⟨⟨tl, htl⟩, ?_⟩
  have hcl : pchar ')' (ms0adv (ms0adv iD)) =
      .err false (.base ((ms0adv iD).off) (.expectedChar ')')) := by
    rw [ms0adv_idem]
    simp [pchar, htl]
  have hph : phase2 found i1 =
      ([], .err false (.stack (.base ((ms0adv iD).off) (.expectedChar ')'))
        [(i1.off, "Column Values")])) := by
    unfold phase2
    rw [hop]
    dsimp only
    rw [hall]
    dsimp only
    rw [hcl]
    rfl
  unfold parseValues
  rw [h1]
  dsimp only
  rw [hres]
  dsimp only
  rw [hph]

/-- C5 counterexample: the repository's more-values test.  On
INSERT INTO test_table (id, name) VALUES ( 2, (quoted text), (quoted 3)),
the reported expected-closing-parenthesis error is anchored at offset 59 —
the comma BEFORE the first excess literal — while the excess literal itself
starts at offset 61; the claim as written places the error at the literal. -/
theorem c5_counterexample :
    insertParse testTm ⟨0, "INSERT INTO test_table (id, name) VALUES ( 2, ".data ++
        [qc] ++ "test asdasd".data ++ [qc] ++ ", ".data ++ [qc] ++ "3".data ++
        [qc] ++ ") ".data⟩ =
      .err false (.stack (.base 59 (.expectedChar ')'))
        [(41, "Column Values"), (22, "Insert Statement")]) ∧
    (("INSERT INTO test_table (id, name) VALUES ( 2, ".data ++
        [qc] ++ "test asdasd".data ++ [qc] ++ ", ".data ++ [qc] ++ "3".data ++
        [qc] ++ ") ".data).drop 59).take 3 = [',', ' ', qc] ∧
    (59 : Nat) ≠ 61 :=
  ⟨rfl, rfl, by decide⟩

/-- C5 witness: the same input at the phase level; the amended theorem
applies and places the error at offset 59, the comma. -/
theorem c5_excess_values_error_at_comma_witness :
    parseValues testCols (⟨22, " (id, name) VALUES ( 2, ".data ++
        [qc] ++ "test asdasd".data ++ [qc] ++ ", ".data ++ [qc] ++ "3".data ++
        [qc] ++ ") ".data⟩ : Sp) =
      .err false (.stack (.base 59 (.expectedChar ')'))
        [(41, "Column Values")]) := by
  have h := c5_excess_values_error_at_comma testCols
    ⟨22, " (id, name) VALUES ( 2, ".data ++ [qc] ++ "test asdasd".data ++ [qc] ++
      ", ".data ++ [qc] ++ "3".data ++ [qc] ++ ") ".data⟩
    ⟨41, "( 2, ".data ++ [qc] ++ "test asdasd".data ++ [qc] ++ ", ".data ++
      [qc] ++ "3".data ++ [qc] ++ ") ".data⟩
    ⟨42, " 2, ".data ++ [qc] ++ "test asdasd".data ++ [qc] ++ ", ".data ++
      [qc] ++ "3".data ++ [qc] ++ ") ".data⟩
    ⟨59, ", ".data ++ [qc] ++ "3".data ++ [qc] ++ ") ".data⟩
    ⟨61, [qc] ++ "3".data ++ [qc] ++ ") ".data⟩ '('
    [⟨24, "id".data⟩, ⟨28, "name".data⟩]
    [(⟨28, "name".data⟩, ⟨"name".data, .varChar 255⟩),
     (⟨24, "id".data⟩, ⟨"id".data, .i32⟩)]
    [(⟨24, "id".data⟩, (⟨43, "2".data⟩, .i32 2)),
     (⟨28, "name".data⟩, (⟨46, [qc] ++ "test asdasd".data ++ [qc]⟩,
       .varChar ("test asdasd".data)))]
    rfl rfl rfl rfl rfl rfl
  exact h.2

/-! ## Claim C2 -/

/-- C2 counterexample: for the literal consisting of an escaped quote
(raw body backslash-quote, two characters; decoded length one) against
varchar(1), the decoded length does not exceed the maximum, yet the parser
rejects with the value-too-long error: the length check uses the RAW
escaped body, not the decoded text. -/
theorem c2_counterexample :
    decodedLength [bs, qc] = 1 ∧ (1 : Nat) ≤ 1 ∧
    valueParseWithType (.varChar 1) ⟨0, [qc, bs, qc, qc]⟩ =
      .err true (.stack (.base 1 (.external "Value too long")) [(0, "Value")]) :=
  ⟨rfl, le_refl 1, rfl⟩

/-- C2 (amended): for a well-formed, quote-terminated single-quoted
literal (escapedRun accepts the body, and the character after the scanned
body is the closing quote), the type-directed parser at Text(size) rejects
with the value-too-long error if and only if the RAW body length (escape
sequences still counted as two characters) exceeds size; otherwise it
succeeds, storing the raw body of that length. -/
theorem c2_too_long_iff_raw_length
    (size : Nat) (i : Sp) (rest tail : List Char) (n : Nat)
    (hs : i.s = qc :: rest)
    (hrun : escapedRun rest = .ok n)
    (hstop : rest.drop n = qc :: tail) :
    (size < n ↔ valueParseWithType (.varChar size) i =
        .err true (.stack (.base (i.off + 1) (.external "Value too long"))
          [(i.off, "Value")])) ∧
    (n ≤ size → valueParseWithType (.varChar size) i =
        .ok (adv i (n + 2)) (⟨i.off, i.s.take (n + 2)⟩, .varChar (rest.take n))) := by
  have hvc : varcharParse size i =
      (if size < n then
        .err true (.base (i.off + 1) (.external "Value too long"))
      else .ok (adv i (n + 2)) (.varChar (rest.take n))) := by
    unfold varcharParse
    rw [hs]
    dsimp only
    rw [if_pos rfl, hrun]
    dsimp only
    rw [hstop]
    dsimp only
    rw [if_pos rfl]
  by_cases hlt : size < n
  · rw [if_pos hlt] at hvc
    constructor
    · constructor
      · intro _
        unfold valueParseWithType withSpan
        rw [show valueParseInner (.varChar size) i = varcharParse size i from rfl, hvc]
        rfl
      · intro _
        exact hlt
    · intro hle
      omega
  · rw [if_neg hlt] at hvc
    constructor
    · constructor
      · intro hcon
        exact absurd hcon hlt
      · intro hcon
        unfold valueParseWithType withSpan at hcon
        rw [show valueParseInner (.varChar size) i = varcharParse size i from rfl, hvc] at hcon
        simp [ctx] at hcon
    · intro hle
      unfold valueParseWithType withSpan
      rw [show valueParseInner (.varChar size) i = varcharParse size i from rfl, hvc]
      have hoff : (adv i (n + 2)).off - i.off = n + 2 := by simp [adv]
      simp [ctx, hoff]

/-- C2 witness: the spec's own examples, obtained from the amended theorem.
A five-character literal against varchar(5) succeeds with the stored text
of length 5, and a nine-character literal against varchar(5) is rejected
as too long (its raw length, with no escapes, exceeds 5). -/
theorem c2_too_long_iff_raw_length_witness :
    valueParseWithType (.varChar 5) ⟨0, [qc] ++ "hello".data ++ [qc]⟩ =
      .ok ⟨7, []⟩ (⟨0, [qc] ++ "hello".data ++ [qc]⟩, .varChar ("hello".data)) ∧
    ("hello".data).length = 5 ∧
    valueParseWithType (.varChar 5) ⟨0, [qc] ++ "123456789".data ++ [qc]⟩ =
      .err true (.stack (.base 1 (.external "Value too long")) [(0, "Value")]) := by
  refine ⟨?_, rfl, ?_⟩
  · have h := (c2_too_long_iff_raw_length 5 ⟨0, [qc] ++ "hello".data ++ [qc]⟩
      ("hello".data ++ [qc]) [] 5 rfl rfl rfl).2 (by omega)
    simpa using h
  · have h := (c2_too_long_iff_raw_length 5 ⟨0, [qc] ++ "123456789".data ++ [qc]⟩
      ("123456789".data ++ [qc]) [] 9 rfl rfl rfl).1
    simpa using h.mp (by omega)

/-! ## Claim C6 -/

theorem intParseFull_spec (s : Bool) (b : Nat) (tp : SqlType) (mk : Int → Value)
    (hd : ∀ j, valueParseInner tp j =
      match intValueParse s b j with
      | .ok r v => .ok r (mk v)
      | .err f t => .err f t)
    (i : Sp) :
    ((i.s.takeWhile isDigitDash) = [] → valueParseWithType tp i =
        .err false (.stack (.base i.off (.kind "TakeWhile1")) [(i.off, "Value")])) ∧
    (∀ v, rustIntFromStr s b (i.s.takeWhile isDigitDash) = some v →
        valueParseWithType tp i =
          .ok (adv i (i.s.takeWhile isDigitDash).length)
            (⟨i.off, i.s.takeWhile isDigitDash⟩, mk v)) ∧
    ((i.s.takeWhile isDigitDash) ≠ [] →
      rustIntFromStr s b (i.s.takeWhile isDigitDash) = none →
        valueParseWithType tp i =
          .err false (.stack (.base i.off (.external "IntConversion"))
            [(i.off, "Value")])) := by
  have htake : i.s.take (i.s.takeWhile isDigitDash).length = i.s.takeWhile isDigitDash :=
    (List.prefix_iff_eq_take.mp (List.takeWhile_prefix _)).symm
  refine ⟨?_, ?_, ?_⟩
  · intro hnil
    unfold valueParseWithType withSpan
    rw [hd i]
    unfold intValueParse takeWhile1
    dsimp only
    rw [hnil]
    rfl
  · intro v hv
    have hne : (i.s.takeWhile isDigitDash).length ≠ 0 := by
      intro hc
      rw [List.length_eq_zero] at hc
      rw [hc] at hv
      simp [rustIntFromStr] at hv
    unfold valueParseWithType withSpan
    rw [hd i]
    unfold intValueParse takeWhile1
    dsimp only
    rw [if_neg hne]
    dsimp only
    rw [hv]
    dsimp only [ctx]
    rw [show (adv i (i.s.takeWhile isDigitDash).length).off - i.off =
      (i.s.takeWhile isDigitDash).length by simp [adv]]
    rw [htake]
  · intro hne hv
    have hne2 : (i.s.takeWhile isDigitDash).length ≠ 0 := by
      simpa [List.length_eq_zero] using hne
    unfold valueParseWithType withSpan
    rw [hd i]
    unfold intValueParse takeWhile1
    dsimp only
    rw [if_neg hne2]
    dsimp only
    rw [hv]
    rfl

/-- C6 counterexample: the claim describes the scan as a maximal digit run
with at most an optional LEADING minus.  On input 1-2 such a scan takes the
run consisting of the single digit 1, a well-formed int8 numeral, so the
claim predicts success with value 1; but parse_int scans minus signs
anywhere, consumes the whole run 1-2, and the conversion fails with the
numeric-conversion error. -/
theorem c6_counterexample :
    valueParseWithType .i8 ⟨0, "1-2".data⟩ =
      .err false (.stack (.base 0 (.external "IntConversion")) [(0, "Value")]) ∧
    claimIntScan ("1-2".data) = "1".data ∧
    rustIntFromStr true 8 ("1".data) = some 1 :=
  ⟨rfl, rfl, rfl⟩

/-- C6 (amended): integer parsing scans the maximal nonempty leading run of
characters that are ASCII digits OR minus signs (a minus may occur
anywhere in the run), failing syntactically (ErrorKind TakeWhile1) when
that run is empty; it then converts the whole run with the exact target
width and signedness, succeeding exactly when the run is a well-formed
numeral that fits, and reporting a numeric-conversion error at the
literal's start otherwise (overflow or malformed run, e.g. a bare or
misplaced sign). -/
theorem c6_int_parse_scans_digit_dash_run
    (tp : SqlType) (s : Bool) (b : Nat) (hsp : intSpec tp = some (s, b)) (i : Sp) :
    ((i.s.takeWhile isDigitDash) = [] → valueParseWithType tp i =
        .err false (.stack (.base i.off (.kind "TakeWhile1")) [(i.off, "Value")])) ∧
    (∀ v, rustIntFromStr s b (i.s.takeWhile isDigitDash) = some v →
        valueParseWithType tp i =
          .ok (adv i (i.s.takeWhile isDigitDash).length)
            (⟨i.off, i.s.takeWhile isDigitDash⟩, mkIntVal tp v)) ∧
    ((i.s.takeWhile isDigitDash) ≠ [] →
      rustIntFromStr s b (i.s.takeWhile isDigitDash) = none →
        valueParseWithType tp i =
          .err false (.stack (.base i.off (.external "IntConversion"))
            [(i.off, "Value")])) := by
  cases tp with
  | varChar sz => simp [intSpec] at hsp
  | i8 =>
    simp only [intSpec, Option.some.injEq, Prod.mk.injEq] at hsp
    obtain ⟨hs, hb⟩ := hsp
    subst hs; subst hb
    exact intParseFull_spec _ _ _ _ (fun j => rfl) i
  | i16 =>
    simp only [intSpec, Option.some.injEq, Prod.mk.injEq] at hsp
    obtain ⟨hs, hb⟩ := hsp
    subst hs; subst hb
    exact intParseFull_spec _ _ _ _ (fun j => rfl) i
  | i32 =>
    simp only [intSpec, Option.some.injEq, Prod.mk.injEq] at hsp
    obtain ⟨hs, hb⟩ := hsp
    subst hs; subst hb
    exact intParseFull_spec _ _ _ _ (fun j => rfl) i
  | i64 =>
    simp only [intSpec, Option.some.injEq, Prod.mk.injEq] at hsp
    obtain ⟨hs, hb⟩ := hsp
    subst hs; subst hb
    exact intParseFull_spec _ _ _ _ (fun j => rfl) i
  | i128 =>
    simp only [intSpec, Option.some.injEq, Prod.mk.injEq] at hsp
    obtain ⟨hs, hb⟩ := hsp
    subst hs; subst hb
    exact intParseFull_spec _ _ _ _ (fun j => rfl) i
  | u8 =>
    simp only [intSpec, Option.some.injEq, Prod.mk.injEq] at hsp
    obtain ⟨hs, hb⟩ := hsp
    subst hs; subst hb
    exact intParseFull_spec _ _ _ _ (fun j => rfl) i
  | u16 =>
    simp only [intSpec, Option.some.injEq, Prod.mk.injEq] at hsp
    obtain ⟨hs, hb⟩ := hsp
    subst hs; subst hb
    exact intParseFull_spec _ _ _ _ (fun j => rfl) i
  | u32 =>
    simp only [intSpec, Option.some.injEq, Prod.mk.injEq] at hsp
    obtain ⟨hs, hb⟩ := hsp
    subst hs; subst hb
    exact intParseFull_spec _ _ _ _ (fun j => rfl) i
  | u64 =>
    simp only [intSpec, Option.some.injEq, Prod.mk.injEq] at hsp
    obtain ⟨hs, hb⟩ := hsp
    subst hs; subst hb
    exact intParseFull_spec _ _ _ _ (fun j => rfl) i
  | u128 =>
    simp only [intSpec, Option.some.injEq, Prod.mk.injEq] at hsp
    obtain ⟨hs, hb⟩ := hsp
    subst hs; subst hb
    exact intParseFull_spec _ _ _ _ (fun j => rfl) i

/-- C6 witness: the spec's explicit int8 cases, obtained from the amended
theorem: 19 parses to 19, -19 parses to -19, and 999 fails with the
numeric-conversion (overflow) error. -/
theorem c6_int_parse_scans_digit_dash_run_witness :
    valueParseWithType .i8 ⟨0, "19".data⟩ =
      .ok ⟨2, []⟩ (⟨0, "19".data⟩, .i8 19) ∧
    valueParseWithType .i8 ⟨0, "-19".data⟩ =
      .ok ⟨3, []⟩ (⟨0, "-19".data⟩, .i8 (-19)) ∧
    valueParseWithType .i8 ⟨0, "999".data⟩ =
      .err false (.stack (.base 0 (.external "IntConversion")) [(0, "Value")]) := by
  refine ⟨?_, ?_, ?_⟩
  · exact (c6_int_parse_scans_digit_dash_run .i8 true 8 rfl ⟨0, "19".data⟩).2.1 19 rfl
  · exact (c6_int_parse_scans_digit_dash_run .i8 true 8 rfl ⟨0, "-19".data⟩).2.1 (-19) rfl
  · exact (c6_int_parse_scans_digit_dash_run .i8 true 8 rfl ⟨0, "999".data⟩).2.2
      (by decide) rfl

/-! ## Claim C7 -/

theorem foldl_maxStep_spec :
    ∀ (l : List FmtErr) (a : FmtErr),
      ∃ i, ∃ h : i < (a :: l).length,
        l.foldl maxStep a = (a :: l).get ⟨i, h⟩ ∧
        (∀ j (hj : j < (a :: l).length),
          ((a :: l).get ⟨j, hj⟩).others.length ≤ (l.foldl maxStep a).others.length) ∧
        (∀ j (hj : j < (a :: l).length), i < j →
          ((a :: l).get ⟨j, hj⟩).others.length < (l.foldl maxStep a).others.length) := by
  intro l
  induction l with
  | nil =>
    intro a
    refine ⟨0, by simp, rfl, ?_, ?_⟩
    · intro j hj
      have hj0 : j = 0 := by simpa using hj
      subst hj0
      simp
    · intro j hj hgt
      have hj0 : j = 0 := by simpa using hj
      omega
  | cons x l ih =>
    intro a
    rw [List.foldl_cons]
    by_cases hc : a.others.length ≤ x.others.length
    · have hb : maxStep a x = x := by simp [maxStep, hc]
      rw [hb]
      obtain ⟨i, h, heq, hle, hlt⟩ := ih x
      refine ⟨i + 1, by simpa using h, by simpa using heq, ?_, ?_⟩
      · intro j hj
        cases j with
        | zero =>
          have hx := hle 0 (by simp)
          simp only [List.get_cons_zero] at hx ⊢
          exact le_trans hc hx
        | succ j2 =>
          have := hle j2 (by simpa using hj)
          simpa using this
      · intro j hj hgt
        cases j with
        | zero => omega
        | succ j2 =>
          have := hlt j2 (by simpa using hj) (by omega)
          simpa using this
    · have hb : maxStep a x = a := by simp [maxStep, hc]
      rw [hb]
      have hxa : x.others.length < a.others.length := by omega
      obtain ⟨i, h, heq, hle, hlt⟩ := ih a
      cases i with
      | zero =>
        have hra : l.foldl maxStep a = a := by simpa using heq
        refine ⟨0, by simp, by simpa using heq, ?_, ?_⟩
        · intro j hj
          cases j with
          | zero => rw [hra]; simp
          | succ j2 =>
            cases j2 with
            | zero =>
              rw [hra]
              simpa using le_of_lt hxa
            | succ j3 =>
              have := hle (j3 + 1) (by simpa using hj)
              simpa using this
        · intro j hj hgt
          cases j with
          | zero => omega
          | succ j2 =>
            cases j2 with
            | zero => rw [hra]; simpa using hxa
            | succ j3 =>
              have := hlt (j3 + 1) (by simpa using hj) (by omega)
              simpa using this
      | succ i2 =>
        refine ⟨i2 + 2, by simpa using h, by simpa using heq, ?_, ?_⟩
        · intro j hj
          cases j with
          | zero =>
            have := hle 0 (by simp)
            simpa using this
          | succ j2 =>
            cases j2 with
            | zero =>
              have ha := hle 0 (by simp)
              simp only [List.get_cons_zero] at ha
              have : ((a :: x :: l).get ⟨1, hj⟩) = x := by simp
              rw [this]
              exact le_trans (le_of_lt hxa) ha
            | succ j3 =>
              have := hle (j3 + 1) (by simpa using hj)
              simpa using this
        · intro j hj hgt
          cases j with
          | zero => omega
          | succ j2 =>
            cases j2 with
            | zero => omega
            | succ j3 =>
              have := hlt (j3 + 1) (by simpa using hj) (by omega)
              simpa using this

/-- C7 counterexample: an alternation of two candidates whose context
stacks tie in depth.  The formatter returns the SECOND candidate's
formatting, not the first encountered, refuting the claim's tie-break. -/
theorem c7_counterexample :
    formatParseError (.alt
      [.stack (.base 3 (.expectedChar 'x')) [(0, "A")],
       .stack (.base 7 (.expectedChar 'y')) [(2, "B")]]) =
      ⟨7, .expectedChar 'y', [(2, "B")]⟩ ∧
    fmtAltList
      [.stack (.base 3 (.expectedChar 'x')) [(0, "A")],
       .stack (.base 7 (.expectedChar 'y')) [(2, "B")]] =
      [⟨3, .expectedChar 'x', [(0, "A")]⟩, ⟨7, .expectedChar 'y', [(2, "B")]⟩] ∧
    (FmtErr.mk 3 (.expectedChar 'x') [(0, "A")]).others.length =
      (FmtErr.mk 7 (.expectedChar 'y') [(2, "B")]).others.length ∧
    (⟨7, .expectedChar 'y', [(2, "B")]⟩ : FmtErr) ≠
      ⟨3, .expectedChar 'x', [(0, "A")]⟩ := by
  refine ⟨?_, ?_, rfl, by decide⟩
  · rfl
  · rfl

/-- C7 (amended): when formatting an alternation, the formatter returns a
candidate whose accumulated context stack is deepest; among several
candidates that tie for the deepest stack it returns the LAST such
candidate encountered (Rust Iterator::max_by_key keeps the later element
on ties), not the first. -/
theorem c7_alt_picks_deepest_last (es : List ErrTree) (hne : es ≠ []) :
    ∃ i, ∃ h : i < (fmtAltList es).length,
      formatParseError (.alt es) = (fmtAltList es).get ⟨i, h⟩ ∧
      (∀ j (hj : j < (fmtAltList es).length),
        ((fmtAltList es).get ⟨j, hj⟩).others.length ≤
          (formatParseError (.alt es)).others.length) ∧
      (∀ j (hj : j < (fmtAltList es).length), i < j →
        ((fmtAltList es).get ⟨j, hj⟩).others.length <
          (formatParseError (.alt es)).others.length) := by
  cases es with
  | nil => exact absurd rfl hne
  | cons e rest =>
    have hfmt : formatParseError (.alt (e :: rest)) =
        (fmtAltList rest).foldl maxStep (formatParseError e) := by
      rw [formatParseError]
      rw [show fmtAltList (e :: rest) = formatParseError e :: fmtAltList rest from
        by rw [fmtAltList]]
      rfl
    have hlist : fmtAltList (e :: rest) = formatParseError e :: fmtAltList rest := by
      rw [fmtAltList]
    rw [hfmt, hlist]
    exact foldl_maxStep_spec (fmtAltList rest) (formatParseError e)

/-- C7 witness: the amended theorem applied to the two-candidate tie above
selects index 1, the last of the tied candidates. -/
theorem c7_alt_picks_deepest_last_witness :
    formatParseError (.alt
      [.stack (.base 3 (.expectedChar 'x')) [(0, "A")],
       .stack (.base 7 (.expectedChar 'y')) [(2, "B")]]) =
      ⟨7, .expectedChar 'y', [(2, "B")]⟩ ∧
    ∃ i, ∃ h : i < (fmtAltList
      [.stack (.base 3 (.expectedChar 'x')) [(0, "A")],
       .stack (.base 7 (.expectedChar 'y')) [(2, "B")]]).length,
      formatParseError (.alt
        [.stack (.base 3 (.expectedChar 'x')) [(0, "A")],
         .stack (.base 7 (.expectedChar 'y')) [(2, "B")]]) =
        (fmtAltList
          [.stack (.base 3 (.expectedChar 'x')) [(0, "A")],
           .stack (.base 7 (.expectedChar 'y')) [(2, "B")]]).get ⟨i, h⟩ :=
  ⟨rfl, by
    obtain ⟨i, h, heq, hle, hlt⟩ := c7_alt_picks_deepest_last
      [.stack (.base 3 (.expectedChar 'x')) [(0, "A")],
       .stack (.base 7 (.expectedChar 'y')) [(2, "B")]] (by simp)
    exact ⟨i, h, heq⟩⟩

/-! ## Claim C8 -/

set_option maxRecDepth 4096 in
/-- C8 counterexample: a run of 129 identifier characters.  The scanner
consumes only the first 128 (take_while_m_n's upper bound), not the maximal
leading run, which has 129 characters. -/
theorem c8_counterexample :
    identifier ⟨0, List.replicate 129 'a'⟩ =
      .ok ⟨128, ['a']⟩ ⟨0, List.replicate 128 'a'⟩ ∧
    (List.replicate 129 'a').takeWhile isIdentChar = List.replicate 129 'a' :=
  ⟨rfl, rfl⟩

/-- C8 (amended): on every input the identifier scanner succeeds without
error — zero-length identifiers included — and consumes exactly the first
min(128, run) characters of the maximal leading run of ASCII alphanumeric
or underscore characters: the maximal run truncated to the scanner's
128-character upper bound. -/
theorem c8_identifier_caps_at_128 (i : Sp) :
    identifier i =
      .ok (adv i ((i.s.takeWhile isIdentChar).take 128).length)
        ⟨i.off, (i.s.takeWhile isIdentChar).take 128⟩ ∧
    ((i.s.takeWhile isIdentChar).take 128).length =
      min 128 (i.s.takeWhile isIdentChar).length := by
  constructor
  · unfold identifier takeWhileMN
    dsimp only
    rw [if_neg (by omega)]
  · simp [List.length_take]

/-! ## Claim C9 -/

/-- C9: the public entry points (parse_format_error specialised to the two
statement grammars) succeed only when the whole input is consumed: a
success of the entry point means the underlying statement parser consumed
everything, and a statement-parser success that leaves trailing text makes
the entry point return an error. -/
theorem c9_entry_points_consume_all (text : List Char) :
    (∀ v, parseCreateTable text = .ok v →
      ∃ i2 : Sp, createParse ⟨0, text⟩ = .ok i2 v ∧ i2.s = []) ∧
    (∀ (rest : Sp) (v : CreateStmt), createParse ⟨0, text⟩ = .ok rest v →
      rest.s ≠ [] → ∃ e, parseCreateTable text = .error e) ∧
    (∀ (tm : TableMap) v, parseInsert tm text = .ok v →
      ∃ i2 : Sp, insertParse tm ⟨0, text⟩ = .ok i2 v ∧ i2.s = []) ∧
    (∀ (tm : TableMap) (rest : Sp) (v : InsertStmt),
      insertParse tm ⟨0, text⟩ = .ok rest v → rest.s ≠ [] →
      ∃ e, parseInsert tm text = .error e) := by
  refine ⟨?_, ?_, ?_, ?_⟩
  · intro v h
    unfold parseCreateTable allConsuming at h
    cases hc : createParse ⟨0, text⟩ with
    | err f t => rw [hc] at h; simp at h
    | ok r v2 =>
      rw [hc] at h
      dsimp only at h
      by_cases hr : r.s.length = 0
      · rw [if_pos hr] at h
        dsimp only at h
        have hv : v2 = v := by injection h
        exact ⟨r, by rw [hv], List.length_eq_zero.mp hr⟩
      · rw [if_neg hr] at h
        simp at h
  · intro rest v h hne
    unfold parseCreateTable allConsuming
    rw [h]
    dsimp only
    rw [if_neg (by simpa [List.length_eq_zero] using hne)]
    exact ⟨_, rfl⟩
  · intro tm v h
    unfold parseInsert allConsuming at h
    cases hc : insertParse tm ⟨0, text⟩ with
    | err f t => rw [hc] at h; simp at h
    | ok r v2 =>
      rw [hc] at h
      dsimp only at h
      by_cases hr : r.s.length = 0
      · rw [if_pos hr] at h
        dsimp only at h
        have hv : v2 = v := by injection h
        exact ⟨r, by rw [hv], List.length_eq_zero.mp hr⟩
      · rw [if_neg hr] at h
        simp at h
  · intro tm rest v h hne
    unfold parseInsert allConsuming
    rw [h]
    dsimp only
    rw [if_neg (by simpa [List.length_eq_zero] using hne)]
    exact ⟨_, rfl⟩

/-- C9 witness: trailing text after a complete CREATE TABLE statement and
after a complete INSERT statement makes the respective entry points fail,
by the full-consumption theorem applied at those inputs. -/
theorem c9_entry_points_consume_all_witness :
    (∃ e, parseCreateTable ("CREATE TABLE t (a int8)X".data) = .error e) ∧
    (∃ e, parseInsert tmC1 ("INSERT INTO t (b, a) VALUES (2, 1)X".data) = .error e) := by
  constructor
  · exact (c9_entry_points_consume_all ("CREATE TABLE t (a int8)X".data)).2.1
      ⟨23, ['X']⟩ ⟨⟨0, "t".data⟩, [⟨⟨16, "a".data⟩, (⟨18, "int8".data⟩, .i8)⟩]⟩
      rfl (by simp)
  · exact (c9_entry_points_consume_all ("INSERT INTO t (b, a) VALUES (2, 1)X".data)).2.2.2
      tmC1 ⟨34, ['X']⟩
      ⟨⟨12, "t".data⟩,
        [(⟨15, "b".data⟩, (⟨29, "2".data⟩, .i8 2)),
         (⟨18, "a".data⟩, (⟨32, "1".data⟩, .i8 1))]⟩
      rfl (by simp)

/-! ## Claim C10 -/

/-- C10: the INSERT parser requires the insert keyword at the very first
input position — any input beginning with a whitespace character fails
with the expected-tag error at that position, for every catalog — whereas
the CREATE TABLE grammar begins with multispace0 and accepts leading
whitespace before the create keyword. -/
theorem c10_insert_rejects_leading_whitespace :
    (∀ (tm : TableMap) (off : Nat) (c : Char) (s : List Char),
      isMsChar c = true →
      insertParse tm ⟨off, c :: s⟩ =
        .err false (.stack (.base off (.expectedTag "insert"))
          [(off, "Insert Statement")])) ∧
    (∃ (rest : Sp) (v : CreateStmt),
      createParse ⟨0, "  CREATE TABLE t (a int8)".data⟩ = .ok rest v) := by
  constructor
  · intro tm off c s hc
    have hnc : noCaseBegins ("insert".data) (c :: s) = false := by
      simp only [isMsChar, Bool.or_eq_true, decide_eq_true_eq] at hc
      rcases hc with ((rfl | rfl) | rfl) | rfl <;> rfl
    unfold insertParse tagNoCase
    dsimp only
    rw [hnc]
    rfl
  · exact ⟨_, _, rfl⟩

/-- C10 witness: a single leading blank makes the INSERT parse fail even
against the empty catalog. -/
theorem c10_insert_rejects_leading_whitespace_witness :
    isMsChar ' ' = true ∧
    insertParse [] ⟨0, [' ']⟩ =
      .err false (.stack (.base 0 (.expectedTag "insert"))
        [(0, "Insert Statement")]) :=
  ⟨rfl, c10_insert_rejects_leading_whitespace.1 [] 0 ' ' [] rfl⟩

end RsDb
